import Mathlib

/-!
# SuperRoutePro — verification of spec claims against the source

Shallow embedding of the IPv4 helper functions, the IP-scan planner and
batch loop, and the log-buffer helpers of `src/App.tsx`, together with
spec-modelled definitions for the two backend operations whose Rust
implementation (`src-tauri/src/network.rs`) is not part of the source
snapshot (the command allow-list guard and the fping aggregate).

JavaScript numbers appearing here are integer-valued; 32-bit wrap-around
operators (`>>> 0`, `&`, `<<`) are modelled explicitly with `% 2^32` and
signed reinterpretation on `Int`/`Nat`.
-/

namespace SuperRoute

/-- The whitespace characters trimmed by JavaScript `String.prototype.trim`
and skipped by `parseInt` (ASCII subset; the inputs handled by this
program contain no exotic Unicode whitespace). -/
def isWs (c : Char) : Bool :=
  c = ' ' || c = '\t' || c = '\n' || c = '\r' || c = '\x0b' || c = '\x0c'

/-- JavaScript `String.prototype.trim` on a character list. -/
def jsTrim (cs : List Char) : List Char :=
  ((cs.dropWhile isWs).reverse.dropWhile isWs).reverse

/-- JavaScript `value.split(".")` on a character list: splits at every
`'.'`, keeping empty pieces. -/
def splitDots : List Char → List (List Char)
  | [] => [[]]
  | c :: rest =>
    if c = '.' then [] :: splitDots rest
    else
      match splitDots rest with
      | [] => [[c]]
      | p :: ps => (c :: p) :: ps

/-- Numeric value of a list of decimal digit characters. -/
def digitsVal (ds : List Char) : Nat :=
  ds.foldl (fun acc c => acc * 10 + (c.toNat - '0'.toNat)) 0

/-- The longest leading run of decimal digits, as a number; `none` when
there is no leading digit (JavaScript `parseInt` returns `NaN`). -/
def leadDigits (cs : List Char) : Option Nat :=
  let ds := cs.takeWhile Char.isDigit
  if ds.isEmpty then none else some (digitsVal ds)

/-- JavaScript `Number.parseInt(s, 10)`: skip leading whitespace, read an
optional sign, then the longest run of decimal digits; `none` models
`NaN`. -/
def jsParseInt10 (cs : List Char) : Option Int :=
  match cs.dropWhile isWs with
  | '-' :: rest => (leadDigits rest).map (fun n => -(n : Int))
  | '+' :: rest => (leadDigits rest).map (fun n => (n : Int))
  | rest => (leadDigits rest).map (fun n => (n : Int))

/-- `parseIpv4` from `src/App.tsx`: trim, split on `"."`, require exactly
four parts, `parseInt` each, and reject any part that is `NaN` or out of
the octet range `[0, 255]`. -/
def parseIpv4 (value : String) : Option (List Nat) :=
  let parts := splitDots (jsTrim value.data)
  if parts.length = 4 then
    match parts.mapM jsParseInt10 with
    | none => none
    | some vals =>
      if vals.all (fun v => 0 ≤ v ∧ v ≤ 255) then
        some (vals.map Int.toNat)
      else none
  else none

/-- `ipv4ToInt` from `src/App.tsx`: big-endian packing of the four octets
into an unsigned 32-bit value (the source applies `>>> 0` after each
shift and after the sum, hence the final `% 2^32`). -/
def ipv4ToInt (octets : List Nat) : Nat :=
  ((octets.getD 0 0) * 2 ^ 24 + (octets.getD 1 0) * 2 ^ 16 +
    (octets.getD 2 0) * 2 ^ 8 + octets.getD 3 0) % 2 ^ 32

/-- JavaScript `ToUint32`: reduce an integer into `[0, 2^32)`. -/
def toUint32 (x : Int) : Nat := (x % 2 ^ 32).toNat

/-- JavaScript `ToInt32`: reduce an integer into `[-2^31, 2^31)`. -/
def toInt32 (x : Int) : Int :=
  if x % 2 ^ 32 ≥ 2 ^ 31 then x % 2 ^ 32 - 2 ^ 32 else x % 2 ^ 32

/-- JavaScript `a & b` on integer-valued numbers: both operands are
reduced to 32 bits, combined bitwise, and the result is read back as a
signed 32-bit value. -/
def jsAnd (a b : Int) : Int :=
  toInt32 (Int.ofNat (Nat.land (toUint32 a) (toUint32 b)))

/-- `intToIpv4` from `src/App.tsx`: render a value as a dotted quad; each
`>>>` first reduces the operand to unsigned 32 bits. -/
def intToIpv4 (value : Int) : String :=
  let u := toUint32 value
  toString (u / 2 ^ 24 % 256) ++ "." ++ toString (u / 2 ^ 16 % 256) ++ "." ++
    toString (u / 2 ^ 8 % 256) ++ "." ++ toString (u % 256)

/-- `prefixToMaskInt` from `src/App.tsx`: `0` for `prefix <= 0`, all-ones
for `prefix >= 32`, otherwise `(0xffffffff << (32 - prefix)) >>> 0`
(the 32-bit left shift is multiplication by `2^(32-prefix)` reduced
modulo `2^32`). -/
def prefixToMaskInt (pfx : Int) : Nat :=
  if pfx ≤ 0 then 0
  else if pfx ≥ 32 then 0xffffffff
  else (0xffffffff * 2 ^ (32 - pfx).toNat) % 2 ^ 32

/-- The `for (bit = 31; bit >= 0; bit--)` loop of `maskToPrefix` from
`src/App.tsx`, recursing on the number of remaining iterations: `n`
iterations remain, so the bit examined next is `n - 1`. -/
def maskToPrefixGo (maskInt : Nat) : Nat → Nat → Bool → Option Nat
  | 0, pfx, _ => some pfx
  | n + 1, pfx, zeroSeen =>
    if maskInt / 2 ^ n % 2 = 1 then
      if zeroSeen then none
      else maskToPrefixGo maskInt n (pfx + 1) zeroSeen
    else maskToPrefixGo maskInt n pfx true

/-- `maskToPrefix` from `src/App.tsx`: parse the dotted quad, then count
leading one-bits, rejecting any one-bit that appears after a zero-bit. -/
def maskToPrefix (mask : String) : Option Nat :=
  match parseIpv4 mask with
  | none => none
  | some octets => maskToPrefixGo (ipv4ToInt octets) 32 0 false

/-! ## IP-scan planning (`buildIpScanPlan` in `src/App.tsx`) -/

/-- `NetworkInterface` from `src/api.ts`. -/
structure NetworkInterface where
  index : String
  ip : String
  gateway : String
  description : String

/-- `RouteEntry` from `src/api.ts`. -/
structure RouteEntry where
  destination : String
  netmask : String
  gateway : String
  metric : String
  interface_index : String

/-- `IP_SCAN_MAX_TARGETS` from `src/App.tsx`. -/
def IP_SCAN_MAX_TARGETS : Nat := 512

/-- `IP_SCAN_BATCH_SIZE` from `src/App.tsx`. -/
def IP_SCAN_BATCH_SIZE : Nat := 24

/-- `FALLBACK_IP_SCAN_PREFIX` from `src/App.tsx`. -/
def FALLBACK_IP_SCAN_PREFIX : Nat := 24

/-- `IpScanPlan` from `src/App.tsx` (`source` is `"route"` or
`"fallback"`). -/
structure IpScanPlan where
  targets : List String
  subnetLabel : String
  truncated : Bool
  source : String
deriving DecidableEq

/-- The `routes.find(...)` predicate inside `buildIpScanPlan`: a
connected (on-link) route on the selected NIC with a parseable,
non-default, non-host destination and netmask. -/
def isConnectedRoute (nic : NetworkInterface) (route : RouteEntry) : Bool :=
  (route.interface_index = nic.index) && (route.gateway = "0.0.0.0") &&
    !((route.destination = "0.0.0.0") || (route.netmask = "255.255.255.255")) &&
    (parseIpv4 route.destination).isSome && (parseIpv4 route.netmask).isSome

/-- The network-selection phase of `buildIpScanPlan`: derive
`(networkInt, prefix, source)` from the first matching connected route
when its prefix is in `[16, 30]`, otherwise fall back to a `/24` around
the NIC's own address.  `networkInt` is a signed 32-bit value because the
source computes it with the JavaScript `&` operator. -/
def routeScanNetwork (nic : NetworkInterface) (routes : List RouteEntry) :
    Option (Int × Nat) :=
  match routes.find? (isConnectedRoute nic) with
  | none => none
  | some connectedRoute =>
    match maskToPrefix connectedRoute.netmask, parseIpv4 connectedRoute.destination with
    | some routePrefix, some routeDestination =>
      if 16 ≤ routePrefix ∧ routePrefix ≤ 30 then
        some (jsAnd (ipv4ToInt routeDestination) (prefixToMaskInt routePrefix), routePrefix)
      else none
    | _, _ => none

/-- The fall-through of the network-selection phase: when no usable
connected route was found, fall back to a `/24` around the NIC's own
address. -/
def resolveScanNetwork (nicInt : Nat) (nic : NetworkInterface)
    (routes : List RouteEntry) : Int × Nat × String :=
  match routeScanNetwork nic routes with
  | some (n, p) => (n, p, "route")
  | none =>
    (jsAnd (nicInt : Int) (prefixToMaskInt (FALLBACK_IP_SCAN_PREFIX : Int)),
      FALLBACK_IP_SCAN_PREFIX, "fallback")

/-- The body of the target-collection loop of `buildIpScanPlan`,
structurally recursive on `fuel`, an upper bound on the remaining
iterations (`offset` grows by one per iteration and the loop stops at
`hostSpan - 1`, so any `fuel ≥ hostSpan - 1 - offset` yields the loop's
exact behaviour; at `fuel = 0` the guard is already false). -/
def scanTargetsGo (networkInt : Int) (nicInt : Nat) (hostSpan : Nat)
    (scanCount : Int) : Nat → Nat → List String → List String
  | 0, _, acc => acc
  | fuel + 1, offset, acc =>
    if offset < hostSpan - 1 ∧ (acc.length : Int) < scanCount then
      let hostInt := toUint32 (networkInt + offset)
      if hostInt = nicInt then
        scanTargetsGo networkInt nicInt hostSpan scanCount fuel (offset + 1) acc
      else
        scanTargetsGo networkInt nicInt hostSpan scanCount fuel (offset + 1)
          (acc ++ [intToIpv4 (hostInt : Int)])
    else acc

/-- The target-collection loop of `buildIpScanPlan`:
`for (offset = 1; offset < hostSpan - 1 && targets.length < scanCount;
offset++)`, skipping the NIC's own address and rendering every other
host as a dotted quad. -/
def scanTargetsLoop (networkInt : Int) (nicInt : Nat) (hostSpan : Nat)
    (scanCount : Int) (offset : Nat) (acc : List String) : List String :=
  scanTargetsGo networkInt nicInt hostSpan scanCount (hostSpan - 1 - offset) offset acc

/-- `buildIpScanPlan` from `src/App.tsx`. -/
def buildIpScanPlan (nic : NetworkInterface) (routes : List RouteEntry) :
    Option IpScanPlan :=
  match parseIpv4 nic.ip with
  | none => none
  | some nicOctets =>
    let nicInt := ipv4ToInt nicOctets
    let resolved := resolveScanNetwork nicInt nic routes
    let networkInt := resolved.1
    let pfx := resolved.2.1
    let source := resolved.2.2
    let hostSpan : Nat := 2 ^ (32 - pfx)
    let hostCapacity : Int := max 0 ((hostSpan : Int) - 2)
    if hostCapacity ≤ 0 then none
    else
      let firstHost : Int := networkInt + 1
      let lastHost : Int := networkInt + (hostSpan : Int) - 2
      let selfInRange : Bool := firstHost ≤ (nicInt : Int) && (nicInt : Int) ≤ lastHost
      let availableTargets : Int := max 0 (hostCapacity - (if selfInRange then 1 else 0))
      let scanCount : Int := min (IP_SCAN_MAX_TARGETS : Int) availableTargets
      let targets := scanTargetsLoop networkInt nicInt hostSpan scanCount 1 []
      some {
        targets := targets
        subnetLabel := intToIpv4 networkInt ++ "/" ++ toString pfx
        truncated := availableTargets > (targets.length : Int)
        source := source
      }

/-! ## The IP-scan batch loop (`runIpScan` in `src/App.tsx`)

The `async` loop is embedded as a sequential trace semantics: the
`await fpingScan(...)` of batch `N` returns (its result is folded into
the running aggregates and published) before the cancellation check and
dispatch of batch `N + 1` appear in the trace, which is exactly the
ordering the source's `await` enforces.  The backend call is abstracted
as an oracle from a target batch to its `FpingScanResult`, and the
caller-settable cancellation flag as the sequence of values it has at
each between-batch check. -/

/-- `FpingHostResult` from `src/api.ts` (latency as an exact rational,
standing for the JavaScript number). -/
structure FpingHostResult where
  target : String
  success : Bool
  latency_ms : ℚ
deriving DecidableEq

/-- `FpingScanResult` from `src/api.ts`. -/
structure FpingScanResult where
  sent : Nat
  received : Nat
  loss_percent : ℚ
  min_ms : ℚ
  avg_ms : ℚ
  max_ms : ℚ
  hosts : List FpingHostResult

/-- The running aggregates of `runIpScan`: `processed` and `reachable`
counters and the `collected` per-host results. -/
structure ScanState where
  processed : Nat
  reachable : Nat
  collected : List FpingHostResult
deriving DecidableEq

/-- One observable step of the `runIpScan` loop: a read of the
cancellation flag (with the value read), a dispatched `fpingScan` batch,
or a publication of the updated aggregates (`setIpScanResults` and the
progress counters). -/
inductive ScanEvent where
  | check (k : Nat) (stop : Bool)
  | dispatch (batch : List String)
  | update (processed reachable : Nat)

/-- The `for (offset = 0; offset < totalTargets; offset += IP_SCAN_BATCH_SIZE)`
loop of `runIpScan`, from loop offset `offset` and flag-check index `k`,
producing the trace of events together with the final aggregates.
`oracle` stands for the awaited `fpingScan` backend call and `stopAt k`
for the value of `ipScanStopRequestedRef.current` at the `k`-th
between-batch check.  The recursion is structural on `fuel`, an upper
bound on the remaining iterations (`offset` grows by `IP_SCAN_BATCH_SIZE
≥ 1` per iteration and the loop stops at `targets.length`, so any
`fuel ≥ targets.length - offset` yields the loop's exact behaviour; at
`fuel = 0` the guard is already false). -/
def runIpScanGo (oracle : List String → FpingScanResult) (stopAt : Nat → Bool)
    (targets : List String) : Nat → Nat → Nat → ScanState →
    List ScanEvent × ScanState
  | 0, _, _, st => ([], st)
  | fuel + 1, offset, k, st =>
    if offset < targets.length then
      if stopAt k then ([ScanEvent.check k true], st)
      else
        let batch := (targets.drop offset).take IP_SCAN_BATCH_SIZE
        let result := oracle batch
        let st' : ScanState := {
          processed := st.processed + batch.length
          reachable := st.reachable + result.received
          collected := st.collected ++ result.hosts
        }
        let rest := runIpScanGo oracle stopAt targets fuel (offset + IP_SCAN_BATCH_SIZE) (k + 1) st'
        (ScanEvent.check k false :: ScanEvent.dispatch batch ::
          ScanEvent.update st'.processed st'.reachable :: rest.1, rest.2)
    else ([], st)

/-- `runIpScan` from `src/App.tsx`, starting from offset `0`, check
index `0` and zeroed aggregates (`processed = 0`, `reachable = 0`,
`collected = []`). -/
def runIpScan (oracle : List String → FpingScanResult) (stopAt : Nat → Bool)
    (targets : List String) : List ScanEvent × ScanState :=
  runIpScanGo oracle stopAt targets targets.length 0 0 ⟨0, 0, []⟩

/-- The dispatched batches of a trace, in order. -/
def dispatchedBatches (trace : List ScanEvent) : List (List String) :=
  trace.filterMap (fun e => match e with
    | ScanEvent.dispatch batch => some batch
    | _ => none)

/-- The published aggregate counters of a trace, in order. -/
def publishedAggregates (trace : List ScanEvent) : List (Nat × Nat) :=
  trace.filterMap (fun e => match e with
    | ScanEvent.update p r => some (p, r)
    | _ => none)

/-- The shape every `runIpScan` trace has, starting at flag-check index
`k`: either the loop never runs, or it stops at the very first flag
check, or one full iteration — flag check, one dispatched batch, one
aggregate publication — is followed by a well-formed remainder at index
`k + 1`.  In particular each dispatch is separated from the next by
exactly one aggregate update, and the flag is read exactly once per
iteration, between batches. -/
inductive BatchedTrace : Nat → List ScanEvent → Prop
  | done (k : Nat) : BatchedTrace k []
  | stopped (k : Nat) : BatchedTrace k [ScanEvent.check k true]
  | step (k : Nat) (batch : List String) (p r : Nat) (rest : List ScanEvent) :
      BatchedTrace (k + 1) rest →
      BatchedTrace k (ScanEvent.check k false :: ScanEvent.dispatch batch ::
        ScanEvent.update p r :: rest)

/-! ## Log ring buffers (`appendCommandLines` / `appendPingLines` in
`src/App.tsx`) -/

/-- `MAX_LOG_LINES` from `src/App.tsx`. -/
def MAX_LOG_LINES : Nat := 600

/-- `MAX_COMMAND_LINES` from `src/App.tsx`. -/
def MAX_COMMAND_LINES : Nat := 1200

/-- The shared shape of `appendCommandLines` and `appendPingLines` in
`src/App.tsx`: push the new lines, then `splice(0, length - maxLines)`
(drop the oldest lines) whenever the buffer exceeds the cap; an empty
`lines` argument returns early leaving the buffer untouched. -/
def appendCapped (maxLines : Nat) (buffer lines : List String) : List String :=
  if lines.isEmpty then buffer
  else
    let grown := buffer ++ lines
    if maxLines < grown.length then grown.drop (grown.length - maxLines)
    else grown

/-- `appendCommandLines` from `src/App.tsx`. -/
def appendCommandLines (buffer lines : List String) : List String :=
  appendCapped MAX_COMMAND_LINES buffer lines

/-- `appendPingLines` from `src/App.tsx`. -/
def appendPingLines (buffer lines : List String) : List String :=
  appendCapped MAX_LOG_LINES buffer lines

/-! ## Spec-modelled backend operations

`src-tauri/src/network.rs` is not part of the source snapshot; the two
operations below are modelled from the spec (§4.2 and §4.5) and the
frontend call sites in `src/api.ts`. -/

/-- Lower-case a string character by character (case-insensitive
comparison of command prefixes). -/
def toLowerStr (s : String) : String :=
  ⟨s.data.map Char.toLower⟩

/-- The leading program token of a command line: the characters before
the first whitespace, after skipping leading whitespace. -/
def leadingToken (commandLine : String) : String :=
  ⟨(commandLine.data.dropWhile isWs).takeWhile (fun c => !isWs c)⟩

/-- Modelled from the spec: the allow-list of permitted command prefixes
behind `run_network_command` (`src-tauri/src/network.rs` is missing from
the snapshot).  The spec names the network-stack, interface
configuration, probe, DNS lookup and firewall/socket-reset utilities and
a constrained shell-host invocation; the concrete members are taken from
the frontend call sites. -/
def ALLOWED_COMMAND_PREFIXES : List String :=
  ["route", "ipconfig", "netsh", "ping", "nslookup", "tracert", "arp", "powershell"]

/-- Modelled from the spec: the fixed, hardcoded two-step recipes that
are allowed to compose two calls (release+renew). -/
def FIXED_COMPOSED_TEMPLATES : List String :=
  ["ipconfig /release && ipconfig /renew"]

/-- Whether a command line contains a chaining metacharacter (`;`, `&&`,
or a backtick). -/
def hasChainMeta (commandLine : String) : Bool :=
  let cs := commandLine.data
  cs.contains ';' || cs.contains '\x60' ||
    (List.range cs.length).any (fun i => cs.getD i ' ' = '&' && cs.getD (i + 1) ' ' = '&')

/-- Modelled from the spec: the allow-list guard `authorize` behind
`run_network_command` (`src-tauri/src/network.rs` is missing from the
snapshot).  The leading token must match an allow-listed prefix
case-insensitively, and chaining metacharacters are rejected unless the
command is one of the fixed composed templates; `none` models the
rejection. -/
def authorize (commandLine : String) : Option String :=
  if ALLOWED_COMMAND_PREFIXES.any
      (fun p => toLowerStr (leadingToken commandLine) = toLowerStr p) then
    if hasChainMeta commandLine && !(FIXED_COMPOSED_TEMPLATES.contains commandLine) then
      none
    else some commandLine
  else none

/-- One probe outcome inside the backend batch scan (success flag and
latency in milliseconds, as an exact rational). -/
structure ProbeOutcome where
  success : Bool
  latencyMs : ℚ

/-- The aggregate returned by `batchProbe` (`fping_scan`). -/
structure BatchProbeResult where
  sent : Nat
  received : Nat
  lossPercent : ℚ
  minMs : ℚ
  avgMs : ℚ
  maxMs : ℚ

/-- Modelled from the spec: the numeric aggregation of the backend
`fping_scan` (`src-tauri/src/network.rs` is missing from the snapshot).
`sent` is the probe count, `received` the success count,
`lossPercent = 100 * (sent - received) / sent` guarded to `0` when
`sent = 0`; min/avg/max are computed over successful latencies only and
are `0` when no probe succeeded. -/
def batchProbe (outcomes : List ProbeOutcome) : BatchProbeResult :=
  let sent := outcomes.length
  let succ := (outcomes.filter (fun o => o.success)).map (fun o => o.latencyMs)
  let received := succ.length
  {
    sent := sent
    received := received
    lossPercent := if sent = 0 then 0 else 100 * ((sent : ℚ) - received) / sent
    minMs := match succ with
      | [] => 0
      | x :: xs => xs.foldl min x
    avgMs := if received = 0 then 0 else succ.sum / received
    maxMs := match succ with
      | [] => 0
      | x :: xs => xs.foldl max x
  }

end SuperRoute

namespace SuperRoute

/-! ## Theorems -/

/-- Once a zero-bit has been seen, any remaining one-bit is fatal: if
`zeroSeen` is set and a one-bit remains among the unexamined low bits,
the `maskToPrefix` loop returns `none`. -/
theorem maskToPrefixGo_zeroSeen_none (m : Nat) :
    ∀ n p j, j < n → m / 2 ^ j % 2 = 1 → maskToPrefixGo m n p true = none := by
  intro n
  induction n with
  | zero => intro p j hj; omega
  | succ n ih =>
    intro p j hj hbit
    rw [maskToPrefixGo]
    by_cases hn : m / 2 ^ n % 2 = 1
    · simp [hn]
    · have hjn : j < n := by
        rcases Nat.lt_succ_iff_lt_or_eq.mp hj with h | h
        · exact h
        · exact absurd (h ▸ hbit) hn
      simp only [if_neg hn]
      exact ih p j hjn hbit

/-- If a zero-bit at position `i` is followed (towards the low end) by a
one-bit at position `j < i`, the `maskToPrefix` loop returns `none` from
any state whose remaining bits include position `i`. -/
theorem maskToPrefixGo_noncontig_none (m : Nat) :
    ∀ n p zs i j, j < i → i < n → m / 2 ^ i % 2 ≠ 1 → m / 2 ^ j % 2 = 1 →
      maskToPrefixGo m n p zs = none := by
  intro n
  induction n with
  | zero => intro p zs i j _ hi; omega
  | succ n ih =>
    intro p zs i j hji hi hzero hone
    rw [maskToPrefixGo]
    by_cases hn : m / 2 ^ n % 2 = 1
    · have hin : i < n := by
        rcases Nat.lt_succ_iff_lt_or_eq.mp hi with h | h
        · exact h
        · exact absurd (h ▸ hn) hzero
      cases zs with
      | true => simp [hn]
      | false =>
        simp only [if_pos hn, Bool.false_eq_true, if_neg (by simp : ¬False)]
        exact ih (p + 1) false i j hji hin hzero hone
    · simp only [if_neg hn]
      exact maskToPrefixGo_zeroSeen_none m n p j (by omega) hone


set_option maxRecDepth 4096

/-- Every character of the decimal rendering of an octet is a digit. -/
theorem toString_octet_digits : ∀ d, d < 256 → ((toString d).data.all Char.isDigit) = true := by
  decide

/-- `parseInt` of the decimal rendering of an octet recovers the octet. -/
theorem jsParseInt10_toString : ∀ d : Nat, d < 256 → jsParseInt10 (toString d).data = some (d : Int) := by
  decide

/-- A digit character is not JavaScript whitespace. -/
theorem not_isWs_of_isDigit (c : Char) (h : c.isDigit = true) : isWs c = false := by
  simp only [Char.isDigit, Bool.and_eq_true, decide_eq_true_eq] at h
  simp only [isWs, Bool.or_eq_false_iff, decide_eq_false_iff_not]
  refine ⟨⟨⟨⟨⟨?_, ?_⟩, ?_⟩, ?_⟩, ?_⟩, ?_⟩ <;> (rintro rfl; revert h; decide)

/-- A digit character is not the dot separator. -/
theorem ne_dot_of_isDigit (c : Char) (h : c.isDigit = true) : c ≠ '.' := by
  rintro rfl
  revert h
  decide

/-- `dropWhile` is the identity when no element satisfies the predicate. -/
theorem dropWhile_eq_self_of (p : Char → Bool) (l : List Char)
    (h : ∀ c ∈ l, p c = false) : l.dropWhile p = l := by
  cases l with
  | nil => rfl
  | cons a t => simp [List.dropWhile_cons, h a (List.mem_cons_self a t)]

/-- `jsTrim` is the identity on whitespace-free text. -/
theorem jsTrim_eq_self (l : List Char) (h : ∀ c ∈ l, isWs c = false) :
    jsTrim l = l := by
  unfold jsTrim
  rw [dropWhile_eq_self_of _ _ h,
    dropWhile_eq_self_of _ _ (fun c hc => h c (List.mem_reverse.mp hc)),
    List.reverse_reverse]

/-- `splitDots` cuts at the first dot. -/
theorem splitDots_append_cons (A B : List Char) (hA : '.' ∉ A) :
    splitDots (A ++ '.' :: B) = A :: splitDots B := by
  induction A with
  | nil => simp [splitDots]
  | cons c t ih =>
    have hc : c ≠ '.' := fun e => hA (e ▸ List.mem_cons_self c t)
    have ht : '.' ∉ t := fun e => hA (List.mem_cons_of_mem c e)
    rw [List.cons_append, splitDots, if_neg hc, ih ht]

/-- `splitDots` of dot-free text is a single piece. -/
theorem splitDots_no_dot (A : List Char) (hA : '.' ∉ A) :
    splitDots A = [A] := by
  induction A with
  | nil => rfl
  | cons c t ih =>
    have hc : c ≠ '.' := fun e => hA (e ▸ List.mem_cons_self c t)
    have ht : '.' ∉ t := fun e => hA (List.mem_cons_of_mem c e)
    rw [splitDots, if_neg hc, ih ht]

/-- The character list of the dotted-quad rendering of an unsigned
32-bit value. -/
theorem intToIpv4_data (v : Nat) (hv : v < 2 ^ 32) :
    (intToIpv4 (v : Int)).data =
      (toString (v / 2 ^ 24 % 256)).data ++ '.' ::
        ((toString (v / 2 ^ 16 % 256)).data ++ '.' ::
          ((toString (v / 2 ^ 8 % 256)).data ++ '.' :: (toString (v % 256)).data)) := by
  have hu : toUint32 (v : Int) = v := by
    unfold toUint32
    omega
  show (intToIpv4 (v : Int)).data = _
  unfold intToIpv4
  rw [hu]
  simp only [String.data_append]
  simp [List.append_assoc]

/-- Parsing the dotted-quad rendering of an unsigned 32-bit value
recovers its four octets. -/
theorem parseIpv4_intToIpv4 (v : Nat) (hv : v < 2 ^ 32) :
    parseIpv4 (intToIpv4 (v : Int)) =
      some [v / 2 ^ 24 % 256, v / 2 ^ 16 % 256, v / 2 ^ 8 % 256, v % 256] := by
  have b1 : v / 2 ^ 24 % 256 < 256 := Nat.mod_lt _ (by norm_num)
  have b2 : v / 2 ^ 16 % 256 < 256 := Nat.mod_lt _ (by norm_num)
  have b3 : v / 2 ^ 8 % 256 < 256 := Nat.mod_lt _ (by norm_num)
  have b4 : v % 256 < 256 := Nat.mod_lt _ (by norm_num)
  set a := v / 2 ^ 24 % 256 with ha
  set b := v / 2 ^ 16 % 256 with hb
  set c := v / 2 ^ 8 % 256 with hc
  set d := v % 256 with hd
  have digA := toString_octet_digits a b1
  have digB := toString_octet_digits b b2
  have digC := toString_octet_digits c b3
  have digD := toString_octet_digits d b4
  have noDot : ∀ x, x < 256 → '.' ∉ (toString x).data := by
    intro x hx he
    have := List.all_eq_true.mp (toString_octet_digits x hx) _ he
    exact ne_dot_of_isDigit _ this rfl
  have noWsAll : ∀ cch ∈ (intToIpv4 (v : Int)).data, isWs cch = false := by
    intro cch hcch
    rw [intToIpv4_data v hv] at hcch
    simp only [List.mem_append, List.mem_cons] at hcch
    rcases hcch with h | h | h | h | h | h | h
    · exact not_isWs_of_isDigit _ (List.all_eq_true.mp digA _ h)
    · subst h; decide
    · exact not_isWs_of_isDigit _ (List.all_eq_true.mp digB _ h)
    · subst h; decide
    · exact not_isWs_of_isDigit _ (List.all_eq_true.mp digC _ h)
    · subst h; decide
    · exact not_isWs_of_isDigit _ (List.all_eq_true.mp digD _ h)
  unfold parseIpv4
  rw [jsTrim_eq_self _ noWsAll, intToIpv4_data v hv,
    splitDots_append_cons _ _ (noDot a b1),
    splitDots_append_cons _ _ (noDot b b2),
    splitDots_append_cons _ _ (noDot c b3),
    splitDots_no_dot _ (noDot d b4)]
  rw [if_pos (show ([(toString a).data, (toString b).data, (toString c).data,
    (toString d).data] : List (List Char)).length = 4 from rfl)]
  have p1 := jsParseInt10_toString a b1
  have p2 := jsParseInt10_toString b b2
  have p3 := jsParseInt10_toString c b3
  have p4 := jsParseInt10_toString d b4
  simp only [List.mapM_cons, List.mapM_nil, p1, p2, p3, p4, Option.bind_eq_bind,
    Option.some_bind, Option.pure_def]
  have hall : (([(a : Int), (b : Int), (c : Int), (d : Int)]).all
      (fun x => decide (0 ≤ x ∧ x ≤ 255))) = true := by
    simp only [List.all_cons, List.all_nil, decide_eq_true_eq, Bool.and_eq_true]
    exact ⟨⟨Int.natCast_nonneg _, by exact_mod_cast Nat.lt_succ_iff.mp b1⟩,
      ⟨Int.natCast_nonneg _, by exact_mod_cast Nat.lt_succ_iff.mp b2⟩,
      ⟨Int.natCast_nonneg _, by exact_mod_cast Nat.lt_succ_iff.mp b3⟩,
      ⟨Int.natCast_nonneg _, by exact_mod_cast Nat.lt_succ_iff.mp b4⟩, trivial⟩
  rw [if_pos hall]
  simp

/-- Reassembling the four octets of an unsigned 32-bit value gives the
value back. -/
theorem ipv4ToInt_octets (v : Nat) (hv : v < 2 ^ 32) :
    ipv4ToInt [v / 2 ^ 24 % 256, v / 2 ^ 16 % 256, v / 2 ^ 8 % 256, v % 256] = v := by
  unfold ipv4ToInt
  simp only [List.getD_cons_zero, List.getD_cons_succ]
  norm_num
  omega

/-- The dotted-quad rendering is injective on unsigned 32-bit values. -/
theorem intToIpv4_inj (v w : Nat) (hv : v < 2 ^ 32) (hw : w < 2 ^ 32)
    (h : intToIpv4 (v : Int) = intToIpv4 (w : Int)) : v = w := by
  have h1 := parseIpv4_intToIpv4 v hv
  have h2 := parseIpv4_intToIpv4 w hw
  rw [h, h2] at h1
  have := Option.some.inj h1
  calc v = ipv4ToInt [v / 2 ^ 24 % 256, v / 2 ^ 16 % 256, v / 2 ^ 8 % 256, v % 256] :=
        (ipv4ToInt_octets v hv).symm
    _ = w := by rw [← this]; exact ipv4ToInt_octets w hw


/-- C2: `prefixToMaskInt n` is the all-zero mask for `n ≤ 0`, the all-ones
mask for `n ≥ 32`, and otherwise the 32-bit truncation of the all-ones
pattern left-shifted by `32 - n` bits, whose value is `2^32 - 2^(32-n)`. -/
theorem c2_prefixToMaskInt_spec (n : Int) :
    (n ≤ 0 → prefixToMaskInt n = 0) ∧
    (32 ≤ n → prefixToMaskInt n = 2 ^ 32 - 1) ∧
    (0 < n → n < 32 →
      prefixToMaskInt n = 0xffffffff * 2 ^ (32 - n).toNat % 2 ^ 32 ∧
      prefixToMaskInt n = 2 ^ 32 - 2 ^ (32 - n).toNat) := by
  refine ⟨fun h => ?_, fun h => ?_, fun h1 h2 => ?_⟩
  · simp [prefixToMaskInt, h]
  · simp only [prefixToMaskInt]
    rw [if_neg (by omega), if_pos (by omega)]
    norm_num
  · have hne1 : ¬ n ≤ 0 := by omega
    have hne2 : ¬ 32 ≤ n := by omega
    simp only [prefixToMaskInt, if_neg hne1, if_neg hne2]
    refine ⟨trivial, ?_⟩
    have hk1 : 1 ≤ (32 - n).toNat := by omega
    have hk2 : (32 - n).toNat ≤ 31 := by omega
    have hle : 2 ^ (32 - n).toNat ≤ 2 ^ 31 :=
      Nat.pow_le_pow_right (by norm_num) hk2
    have hge : 1 ≤ 2 ^ (32 - n).toNat := Nat.one_le_two_pow
    have h31 : (2 : Nat) ^ 31 = 2147483648 := by norm_num
    rw [h31] at hle
    omega

/-- C2 witness: at `n = 8` the hypotheses `0 < 8` and `8 < 32` hold and
the mask is `2^32 - 2^24`. -/
theorem c2_prefixToMaskInt_spec_witness :
    (0 : Int) < 8 ∧ (8 : Int) < 32 ∧
      prefixToMaskInt 8 = 2 ^ 32 - 2 ^ 24 := by
  refine ⟨by norm_num, by norm_num, ?_⟩
  have h := ((c2_prefixToMaskInt_spec 8).2.2 (by norm_num) (by norm_num)).2
  simpa using h

/-- C3: converting a prefix in `[0, 32]` to a mask and rendering it as a
dotted quad round-trips through `maskToPrefix` back to the prefix. -/
theorem c3_mask_roundtrip (n : Nat) (h : n ≤ 32) :
    maskToPrefix (intToIpv4 (prefixToMaskInt (n : Int))) = some n := by
  revert h
  revert n
  decide

/-- C3 witness: the round-trip at `n = 24`. -/
theorem c3_mask_roundtrip_witness :
    24 ≤ 32 ∧
      maskToPrefix (intToIpv4 (prefixToMaskInt (24 : Int))) = some 24 :=
  ⟨by norm_num, c3_mask_roundtrip 24 (by norm_num)⟩

/-- C4: for any mask string that parses as a dotted quad whose 32-bit
value has a zero bit at position `i` and a one bit at a lower position
`j` (a non-contiguous mask), `maskToPrefix` returns `none`. -/
theorem c4_maskToPrefix_rejects_noncontiguous
    (mask : String) (octets : List Nat) (i j : Nat)
    (hparse : parseIpv4 mask = some octets)
    (hji : j < i) (hi : i < 32)
    (hzero : (ipv4ToInt octets).testBit i = false)
    (hone : (ipv4ToInt octets).testBit j = true) :
    maskToPrefix mask = none := by
  rw [maskToPrefix, hparse]
  rw [Nat.testBit_to_div_mod] at hzero hone
  exact maskToPrefixGo_noncontig_none (ipv4ToInt octets)
    32 0 false i j hji hi (by simpa using hzero) (by simpa using hone)

/-- C4 witness: `255.0.255.0` has a zero bit at position 23 and a one bit
at position 15, and is rejected. -/
theorem c4_maskToPrefix_rejects_noncontiguous_witness :
    parseIpv4 "255.0.255.0" = some [255, 0, 255, 0] ∧
      (ipv4ToInt [255, 0, 255, 0]).testBit 23 = false ∧
      (ipv4ToInt [255, 0, 255, 0]).testBit 15 = true ∧
      maskToPrefix "255.0.255.0" = none :=
  ⟨by decide, by decide, by decide,
    c4_maskToPrefix_rejects_noncontiguous "255.0.255.0" [255, 0, 255, 0]
      23 15 (by decide) (by decide) (by decide) (by decide) (by decide)⟩

end SuperRoute

namespace SuperRoute

/-- `ipv4ToInt` always lands in the unsigned 32-bit range. -/
theorem ipv4ToInt_lt (octets : List Nat) : ipv4ToInt octets < 2 ^ 32 :=
  Nat.mod_lt _ (by norm_num)

/-- Closed form of `prefixToMaskInt` on proper prefixes: the mask is
`2^32 - 2^(32-p)`. -/
theorem prefixToMaskInt_closed (p : Int) (h1 : 0 < p) (h2 : p < 32) :
    prefixToMaskInt p = 2 ^ 32 - 2 ^ (32 - p).toNat := by
  simp only [prefixToMaskInt, if_neg (by omega : ¬ p ≤ 0), if_neg (by omega : ¬ p ≥ 32)]
  have hk1 : 1 ≤ (32 - p).toNat := by omega
  have hk2 : (32 - p).toNat ≤ 31 := by omega
  have hle : 2 ^ (32 - p).toNat ≤ 2 ^ 31 := Nat.pow_le_pow_right (by norm_num) hk2
  have hge : 1 ≤ 2 ^ (32 - p).toNat := Nat.one_le_two_pow
  have h31 : (2 : Nat) ^ 31 = 2147483648 := by norm_num
  rw [h31] at hle
  omega

/-- `prefixToMaskInt` always lands in the unsigned 32-bit range. -/
theorem prefixToMaskInt_lt (p : Int) : prefixToMaskInt p < 2 ^ 32 := by
  unfold prefixToMaskInt
  split
  · norm_num
  · split
    · norm_num
    · exact Nat.mod_lt _ (by norm_num)

/-- `toUint32` is the identity on unsigned 32-bit values. -/
theorem toUint32_ofNat (a : Nat) (h : a < 2 ^ 32) : toUint32 (a : Int) = a := by
  unfold toUint32
  omega

/-- Reading a signed 32-bit value back as unsigned, after adding a small
offset, recovers the unsigned sum. -/
theorem toUint32_toInt32_add (a off : Nat) (ha : a < 2 ^ 32) (h : a + off < 2 ^ 32) :
    toUint32 (toInt32 (a : Int) + (off : Int)) = a + off := by
  unfold toUint32 toInt32
  split <;> omega

/-- Reading a signed 32-bit value back as unsigned recovers the value. -/
theorem toUint32_toInt32 (a : Nat) (ha : a < 2 ^ 32) :
    toUint32 (toInt32 (a : Int)) = a := by
  have := toUint32_toInt32_add a 0 ha (by omega)
  simpa using this

/-- `intToIpv4` depends only on the unsigned 32-bit reduction of its
argument. -/
theorem intToIpv4_congr (x y : Int) (h : toUint32 x = toUint32 y) :
    intToIpv4 x = intToIpv4 y := by
  unfold intToIpv4
  rw [h]

/-- A successful route-based network selection has a prefix in `[16, 30]`
and masks an unsigned 32-bit destination. -/
theorem routeScanNetwork_spec (nic : NetworkInterface) (routes : List RouteEntry)
    (n : Int) (p : Nat) (h : routeScanNetwork nic routes = some (n, p)) :
    16 ≤ p ∧ p ≤ 30 ∧
      ∃ u : Nat, u < 2 ^ 32 ∧ n = jsAnd (u : Int) ((prefixToMaskInt (p : Int) : Nat) : Int) := by
  unfold routeScanNetwork at h
  split at h
  · exact absurd h (by simp)
  · split at h
    · rename_i routePrefix routeDestination heq1 heq2
      split at h
      · rename_i hcond
        obtain ⟨he1, he2⟩ := Prod.mk.injEq .. ▸ Option.some.inj h
        refine ⟨by omega, by omega, ipv4ToInt routeDestination, ipv4ToInt_lt _, ?_⟩
        rw [← he1, ← he2]
      · exact absurd h (by simp)
    · exact absurd h (by simp)

/-- Whatever branch `resolveScanNetwork` takes, the prefix is in
`[16, 30]` and the network is the `&` of some unsigned 32-bit value with
the prefix mask. -/
theorem resolveScanNetwork_spec (nicInt : Nat) (nic : NetworkInterface)
    (routes : List RouteEntry) (networkInt : Int) (pfx : Nat) (src : String)
    (hn : nicInt < 2 ^ 32)
    (h : resolveScanNetwork nicInt nic routes = (networkInt, pfx, src)) :
    16 ≤ pfx ∧ pfx ≤ 30 ∧
      ∃ u : Nat, u < 2 ^ 32 ∧ networkInt = jsAnd (u : Int) ((prefixToMaskInt (pfx : Int) : Nat) : Int) := by
  unfold resolveScanNetwork at h
  split at h
  · rename_i n p heq
    injection h with ha hrest
    injection hrest with hb hc
    subst ha
    subst hb
    exact routeScanNetwork_spec nic routes n p heq
  · injection h with ha hrest
    injection hrest with hb hc
    subst ha
    subst hb
    refine ⟨by norm_num [FALLBACK_IP_SCAN_PREFIX], by norm_num [FALLBACK_IP_SCAN_PREFIX], nicInt, hn, rfl⟩

/-- The target loop never grows the list beyond `IP_SCAN_MAX_TARGETS`
when the scan count is capped by it. -/
theorem scanTargetsGo_length (networkInt : Int) (nicInt hostSpan : Nat)
    (scanCount : Int) (hcnt : scanCount ≤ 512) :
    ∀ fuel offset acc, acc.length ≤ 512 →
      (scanTargetsGo networkInt nicInt hostSpan scanCount fuel offset acc).length ≤ 512 := by
  intro fuel
  induction fuel with
  | zero => intro offset acc hlen; exact hlen
  | succ fuel ih =>
    intro offset acc hlen
    rw [scanTargetsGo]
    split
    · rename_i hcond
      dsimp only
      split
      · exact ih (offset + 1) acc hlen
      · refine ih (offset + 1) _ ?_
        have : (acc.length : Int) < scanCount := hcond.2
        simp only [List.length_append, List.length_cons, List.length_nil]
        omega
    · exact hlen

/-- Length bound for the loop wrapper. -/
theorem scanTargetsLoop_length (networkInt : Int) (nicInt hostSpan : Nat)
    (scanCount : Int) (hcnt : scanCount ≤ 512) :
    ∀ offset acc, acc.length ≤ 512 →
      (scanTargetsLoop networkInt nicInt hostSpan scanCount offset acc).length ≤ 512 := by
  intro offset acc hlen
  exact scanTargetsGo_length networkInt nicInt hostSpan scanCount hcnt _ offset acc hlen

/-- Every string the target loop adds is the dotted quad of a host whose
offset is strictly inside the subnet and that differs from the NIC's own
address. -/
theorem scanTargetsGo_mem (networkInt : Int) (nicInt hostSpan : Nat)
    (scanCount : Int) :
    ∀ fuel offset acc t,
      t ∈ scanTargetsGo networkInt nicInt hostSpan scanCount fuel offset acc →
      t ∈ acc ∨ ∃ o : Nat, offset ≤ o ∧ o < hostSpan - 1 ∧
        toUint32 (networkInt + (o : Int)) ≠ nicInt ∧
        t = intToIpv4 ((toUint32 (networkInt + (o : Int)) : Nat) : Int) := by
  intro fuel
  induction fuel with
  | zero => intro offset acc t ht; exact Or.inl ht
  | succ fuel ih =>
    intro offset acc t ht
    rw [scanTargetsGo] at ht
    split at ht
    · rename_i hcond
      dsimp only at ht
      split at ht
      · rcases ih (offset + 1) acc t ht with h | ⟨o, ho1, ho2, ho3, ho4⟩
        · exact Or.inl h
        · exact Or.inr ⟨o, by omega, ho2, ho3, ho4⟩
      · rename_i hne
        rcases ih (offset + 1) _ t ht with h | ⟨o, ho1, ho2, ho3, ho4⟩
        · rcases List.mem_append.mp h with h | h
          · exact Or.inl h
          · refine Or.inr ⟨offset, le_refl _, hcond.1, hne, ?_⟩
            simpa using h
        · exact Or.inr ⟨o, by omega, ho2, ho3, ho4⟩
    · exact Or.inl ht

/-- Membership characterisation for the loop wrapper. -/
theorem scanTargetsLoop_mem (networkInt : Int) (nicInt hostSpan : Nat)
    (scanCount : Int) :
    ∀ offset acc t, t ∈ scanTargetsLoop networkInt nicInt hostSpan scanCount offset acc →
      t ∈ acc ∨ ∃ o : Nat, offset ≤ o ∧ o < hostSpan - 1 ∧
        toUint32 (networkInt + (o : Int)) ≠ nicInt ∧
        t = intToIpv4 ((toUint32 (networkInt + (o : Int)) : Nat) : Int) := by
  intro offset acc t ht
  exact scanTargetsGo_mem networkInt nicInt hostSpan scanCount _ offset acc t ht

/-- C9: a scan plan never contains more than `IP_SCAN_MAX_TARGETS`
targets, and the target list excludes the subnet's network address, the
subnet's broadcast address, and the NIC's own IP address.  `networkInt`
and `pfx` are the network selection recorded in the plan's
`subnetLabel`. -/
theorem c9_buildIpScanPlan_bounds (nic : NetworkInterface) (routes : List RouteEntry)
    (plan : IpScanPlan) (nicOctets : List Nat) (networkInt : Int) (pfx : Nat)
    (src : String)
    (hparse : parseIpv4 nic.ip = some nicOctets)
    (hres : resolveScanNetwork (ipv4ToInt nicOctets) nic routes = (networkInt, pfx, src))
    (hplan : buildIpScanPlan nic routes = some plan) :
    plan.targets.length ≤ IP_SCAN_MAX_TARGETS ∧
    plan.subnetLabel = intToIpv4 networkInt ++ "/" ++ toString pfx ∧
    intToIpv4 networkInt ∉ plan.targets ∧
    intToIpv4 ((toUint32 networkInt + 2 ^ (32 - pfx) - 1 : Nat) : Int) ∉ plan.targets ∧
    nic.ip ∉ plan.targets := by
  obtain ⟨hp16, hp30, u, hu, hnet⟩ :=
    resolveScanNetwork_spec (ipv4ToInt nicOctets) nic routes networkInt pfx src
      (ipv4ToInt_lt nicOctets) hres
  set A : Nat := Nat.land (toUint32 (u : Int)) (toUint32 ((prefixToMaskInt (pfx : Int) : Nat) : Int)) with hA
  have hAland : A = Nat.land u (prefixToMaskInt (pfx : Int)) := by
    rw [hA, toUint32_ofNat u hu, toUint32_ofNat _ (prefixToMaskInt_lt _)]
  have hmask : prefixToMaskInt (pfx : Int) = 2 ^ 32 - 2 ^ (32 - pfx) := by
    have h := prefixToMaskInt_closed (pfx : Int) (by omega) (by omega)
    have h2 : ((32 : Int) - (pfx : Int)).toNat = 32 - pfx := by omega
    rw [h2] at h
    exact h
  have hk1 : 2 ≤ 32 - pfx := by omega
  have hk2 : 32 - pfx ≤ 16 := by omega
  have hspan4 : 4 ≤ 2 ^ (32 - pfx) := by
    calc (4 : Nat) = 2 ^ 2 := by norm_num
    _ ≤ 2 ^ (32 - pfx) := Nat.pow_le_pow_right (by norm_num) hk1
  have hspanle : (2 : Nat) ^ (32 - pfx) ≤ 2 ^ 16 := Nat.pow_le_pow_right (by norm_num) hk2
  have hA_le : A ≤ 2 ^ 32 - 2 ^ (32 - pfx) := by
    rw [hAland]
    calc Nat.land u (prefixToMaskInt (pfx : Int)) ≤ prefixToMaskInt (pfx : Int) :=
        Nat.and_le_right
    _ = 2 ^ 32 - 2 ^ (32 - pfx) := hmask
  have hA_lt : A < 2 ^ 32 := by
    have h216 : (2 : Nat) ^ 16 ≤ 2 ^ 32 := Nat.pow_le_pow_right (by norm_num) (by norm_num)
    omega
  have hnetA : networkInt = toInt32 (A : Int) := by
    rw [hnet]
    unfold jsAnd
    rw [← hA]
    rfl
  have htu : toUint32 networkInt = A := by
    rw [hnetA]
    exact toUint32_toInt32 A hA_lt
  unfold buildIpScanPlan at hplan
  rw [hparse] at hplan
  simp only [hres] at hplan
  split at hplan
  · exact absurd hplan (by simp)
  · rename_i hcap
    have hplan' := Option.some.inj hplan
    subst hplan'
    refine ⟨?_, rfl, ?_, ?_, ?_⟩
    · refine scanTargetsLoop_length _ _ _ _ ?_ 1 [] (by simp)
      exact le_trans inf_le_left (by norm_num [IP_SCAN_MAX_TARGETS])
    · intro hmem
      rcases scanTargetsLoop_mem networkInt (ipv4ToInt nicOctets) (2 ^ (32 - pfx)) _
          1 [] _ hmem with h | ⟨o, ho1, ho2, ho3, ho4⟩
      · exact absurd h (List.not_mem_nil _)
      · have hADD : toUint32 (networkInt + (o : Int)) = A + o := by
          rw [hnetA]
          exact toUint32_toInt32_add A o hA_lt (by omega)
        rw [hADD] at ho4
        have e1 : intToIpv4 networkInt = intToIpv4 ((A : Nat) : Int) :=
          intToIpv4_congr _ _ (by rw [htu, toUint32_ofNat A hA_lt])
        rw [e1] at ho4
        have := intToIpv4_inj A (A + o) hA_lt (by omega) ho4
        omega
    · intro hmem
      rcases scanTargetsLoop_mem networkInt (ipv4ToInt nicOctets) (2 ^ (32 - pfx)) _
          1 [] _ hmem with h | ⟨o, ho1, ho2, ho3, ho4⟩
      · exact absurd h (List.not_mem_nil _)
      · have hADD : toUint32 (networkInt + (o : Int)) = A + o := by
          rw [hnetA]
          exact toUint32_toInt32_add A o hA_lt (by omega)
        rw [hADD, htu] at ho4
        have := intToIpv4_inj (A + 2 ^ (32 - pfx) - 1) (A + o) (by omega) (by omega) ho4
        omega
    · intro hmem
      rcases scanTargetsLoop_mem networkInt (ipv4ToInt nicOctets) (2 ^ (32 - pfx)) _
          1 [] _ hmem with h | ⟨o, ho1, ho2, ho3, ho4⟩
      · exact absurd h (List.not_mem_nil _)
      · have hADD : toUint32 (networkInt + (o : Int)) = A + o := by
          rw [hnetA]
          exact toUint32_toInt32_add A o hA_lt (by omega)
        rw [hADD] at ho4
        have hr := parseIpv4_intToIpv4 (A + o) (by omega)
        rw [← ho4, hparse] at hr
        have hoct := Option.some.inj hr
        have hval : ipv4ToInt nicOctets = A + o := by
          rw [hoct]
          exact ipv4ToInt_octets (A + o) (by omega)
        rw [hADD] at ho3
        exact ho3 hval.symm

end SuperRoute

namespace SuperRoute

/-- C9 witness: for a NIC at `10.0.0.1` with a connected `/30` route, the
plan is `{targets := ["10.0.0.2"], subnetLabel := "10.0.0.0/30", ...}`
and the network (`10.0.0.0`), broadcast (`10.0.0.3`) and NIC addresses
are all absent from the targets. -/
theorem c9_buildIpScanPlan_bounds_witness :
    (⟨["10.0.0.2"], "10.0.0.0/30", false, "route"⟩ : IpScanPlan).targets.length ≤
        IP_SCAN_MAX_TARGETS ∧
      (⟨["10.0.0.2"], "10.0.0.0/30", false, "route"⟩ : IpScanPlan).subnetLabel =
        intToIpv4 167772160 ++ "/" ++ toString 30 ∧
      intToIpv4 167772160 ∉
        (⟨["10.0.0.2"], "10.0.0.0/30", false, "route"⟩ : IpScanPlan).targets ∧
      intToIpv4 ((toUint32 167772160 + 2 ^ (32 - 30) - 1 : Nat) : Int) ∉
        (⟨["10.0.0.2"], "10.0.0.0/30", false, "route"⟩ : IpScanPlan).targets ∧
      (⟨"5", "10.0.0.1", "10.0.0.2", "Eth"⟩ : NetworkInterface).ip ∉
        (⟨["10.0.0.2"], "10.0.0.0/30", false, "route"⟩ : IpScanPlan).targets :=
  c9_buildIpScanPlan_bounds
    ⟨"5", "10.0.0.1", "10.0.0.2", "Eth"⟩
    [⟨"10.0.0.0", "255.255.255.252", "0.0.0.0", "256", "5"⟩]
    ⟨["10.0.0.2"], "10.0.0.0/30", false, "route"⟩
    [10, 0, 0, 1] 167772160 30 "route"
    (by decide) (by decide) (by decide)

end SuperRoute

namespace SuperRoute

/-- Every trace the batch loop produces has the check/dispatch/update
iteration shape. -/
theorem runIpScanGo_batchedTrace (oracle : List String → FpingScanResult)
    (stopAt : Nat → Bool) (targets : List String) :
    ∀ fuel offset k st,
      BatchedTrace k (runIpScanGo oracle stopAt targets fuel offset k st).1 := by
  intro fuel
  induction fuel with
  | zero => intro offset k st; exact BatchedTrace.done k
  | succ fuel ih =>
    intro offset k st
    rw [runIpScanGo]
    split
    · split
      · exact BatchedTrace.stopped k
      · exact BatchedTrace.step k _ _ _ _ (ih (offset + IP_SCAN_BATCH_SIZE) (k + 1) _)
    · exact BatchedTrace.done k

/-- `dispatchedBatches` on one loop iteration. -/
theorem dispatchedBatches_iteration (k : Nat) (b : List String) (p r : Nat)
    (rest : List ScanEvent) :
    dispatchedBatches (ScanEvent.check k false :: ScanEvent.dispatch b ::
      ScanEvent.update p r :: rest) = b :: dispatchedBatches rest := by
  simp [dispatchedBatches, List.filterMap_cons]

/-- `dispatchedBatches` of a stopped trace is empty. -/
theorem dispatchedBatches_stopped (k : Nat) :
    dispatchedBatches [ScanEvent.check k true] = [] := by
  simp [dispatchedBatches, List.filterMap_cons]

/-- `publishedAggregates` on one loop iteration. -/
theorem publishedAggregates_iteration (k : Nat) (b : List String) (p r : Nat)
    (rest : List ScanEvent) :
    publishedAggregates (ScanEvent.check k false :: ScanEvent.dispatch b ::
      ScanEvent.update p r :: rest) = (p, r) :: publishedAggregates rest := by
  simp [publishedAggregates, List.filterMap_cons]

/-- `publishedAggregates` of a stopped trace is empty. -/
theorem publishedAggregates_stopped (k : Nat) :
    publishedAggregates [ScanEvent.check k true] = [] := by
  simp [publishedAggregates, List.filterMap_cons]

/-- A list extended beyond a take/drop split absorbs prefixes of the
remainder. -/
theorem prefix_take_append {α : Type} (l x : List α) (n : Nat)
    (h : x <+: l.drop n) : l.take n ++ x <+: l := by
  conv_rhs => rw [← List.take_append_drop n l]
  exact (List.prefix_append_right_inj _).mpr h

/-- Every batch the loop dispatches is a `slice(offset, offset + 24)`,
hence no larger than `IP_SCAN_BATCH_SIZE`. -/
theorem runIpScanGo_batch_size (oracle : List String → FpingScanResult)
    (stopAt : Nat → Bool) (targets : List String) :
    ∀ fuel offset k st batch,
      batch ∈ dispatchedBatches (runIpScanGo oracle stopAt targets fuel offset k st).1 →
      batch.length ≤ IP_SCAN_BATCH_SIZE := by
  intro fuel
  induction fuel with
  | zero => intro offset k st batch h; exact absurd h (by simp [runIpScanGo, dispatchedBatches])
  | succ fuel ih =>
    intro offset k st batch h
    rw [runIpScanGo] at h
    split at h
    · split at h
      · rw [show (([ScanEvent.check k true], st) : List ScanEvent × ScanState).1 =
            [ScanEvent.check k true] from rfl, dispatchedBatches_stopped] at h
        exact absurd h (List.not_mem_nil _)
      · rw [dispatchedBatches_iteration] at h
        rcases List.mem_cons.mp h with he | hm
        · subst he
          simpa using List.length_take_le IP_SCAN_BATCH_SIZE _
        · exact ih (offset + IP_SCAN_BATCH_SIZE) (k + 1) _ batch hm
    · exact absurd h (by simp [dispatchedBatches])

/-- The dispatched batches, joined in order, form a prefix of the
not-yet-consumed targets: batches are consecutive, in order, and never
overlap or skip. -/
theorem runIpScanGo_flatten_prefix (oracle : List String → FpingScanResult)
    (stopAt : Nat → Bool) (targets : List String) :
    ∀ fuel offset k st,
      (dispatchedBatches (runIpScanGo oracle stopAt targets fuel offset k st).1).flatten <+:
        targets.drop offset := by
  intro fuel
  induction fuel with
  | zero => intro offset k st; simp [runIpScanGo, dispatchedBatches]
  | succ fuel ih =>
    intro offset k st
    rw [runIpScanGo]
    split
    · split
      · rw [show (([ScanEvent.check k true], st) : List ScanEvent × ScanState).1 =
            [ScanEvent.check k true] from rfl, dispatchedBatches_stopped]
        simp
      · rw [dispatchedBatches_iteration, List.flatten_cons]
        refine prefix_take_append _ _ IP_SCAN_BATCH_SIZE ?_
        rw [List.drop_drop]
        have hstep := ih (offset + IP_SCAN_BATCH_SIZE) (k + 1)
          ⟨st.processed + ((targets.drop offset).take IP_SCAN_BATCH_SIZE).length,
            st.reachable + (oracle ((targets.drop offset).take IP_SCAN_BATCH_SIZE)).received,
            st.collected ++ (oracle ((targets.drop offset).take IP_SCAN_BATCH_SIZE)).hosts⟩
        simpa [Nat.add_comm] using hstep
    · simp [dispatchedBatches]

/-- Along any run, the published aggregates never decrease, starting
from the running counters. -/
theorem runIpScanGo_aggregates_chain (oracle : List String → FpingScanResult)
    (stopAt : Nat → Bool) (targets : List String) :
    ∀ fuel offset k st,
      List.Chain' (fun a b => a.1 ≤ b.1 ∧ a.2 ≤ b.2)
        ((st.processed, st.reachable) ::
          publishedAggregates (runIpScanGo oracle stopAt targets fuel offset k st).1) := by
  intro fuel
  induction fuel with
  | zero =>
    intro offset k st
    simp [runIpScanGo, publishedAggregates]
  | succ fuel ih =>
    intro offset k st
    rw [runIpScanGo]
    split
    · split
      · rw [show (([ScanEvent.check k true], st) : List ScanEvent × ScanState).1 =
            [ScanEvent.check k true] from rfl, publishedAggregates_stopped]
        simp
      · rw [publishedAggregates_iteration]
        refine List.chain'_cons.mpr ⟨⟨Nat.le_add_right _ _, Nat.le_add_right _ _⟩, ?_⟩
        exact ih (offset + IP_SCAN_BATCH_SIZE) (k + 1) _
    · simp [publishedAggregates]

/-- C5: the scan loop partitions the targets into consecutive batches of
at most `IP_SCAN_BATCH_SIZE`: every trace has the
check → dispatch → update iteration shape (so the awaited result of
batch `N` is folded into the aggregates and published before batch
`N + 1` is dispatched — the sequential trace is exactly the ordering the
source's `await` enforces), every dispatched batch has at most 24
targets, and the dispatched batches joined in order form a prefix of the
target list. -/
theorem c5_scan_batching (oracle : List String → FpingScanResult)
    (stopAt : Nat → Bool) (targets : List String) :
    BatchedTrace 0 (runIpScan oracle stopAt targets).1 ∧
    (∀ batch ∈ dispatchedBatches (runIpScan oracle stopAt targets).1,
      batch.length ≤ IP_SCAN_BATCH_SIZE) ∧
    (dispatchedBatches (runIpScan oracle stopAt targets).1).flatten <+: targets := by
  unfold runIpScan
  refine ⟨runIpScanGo_batchedTrace oracle stopAt targets targets.length 0 0 _,
    fun batch hb => runIpScanGo_batch_size oracle stopAt targets targets.length 0 0 _ batch hb,
    ?_⟩
  have h := runIpScanGo_flatten_prefix oracle stopAt targets targets.length 0 0 ⟨0, 0, []⟩
  simpa using h

/-- C6: when the cancellation flag is already set at the first
between-batch check, the loop exits before any `fpingScan` dispatch: the
trace contains no dispatch, at most the single flag read, and the final
aggregates still hold `processed = 0` and `reachable = 0`. -/
theorem c6_cancel_before_first_batch (oracle : List String → FpingScanResult)
    (stopAt : Nat → Bool) (targets : List String) (h : stopAt 0 = true) :
    (runIpScan oracle stopAt targets).2.processed = 0 ∧
    (runIpScan oracle stopAt targets).2.reachable = 0 ∧
    dispatchedBatches (runIpScan oracle stopAt targets).1 = [] ∧
    ((runIpScan oracle stopAt targets).1 = [] ∨
      (runIpScan oracle stopAt targets).1 = [ScanEvent.check 0 true]) := by
  unfold runIpScan
  rcases hL : targets.length with _ | n
  · exact ⟨rfl, rfl, rfl, Or.inl rfl⟩
  · rw [runIpScanGo]
    rw [if_pos (by omega : 0 < targets.length), if_pos h]
    exact ⟨rfl, rfl, dispatchedBatches_stopped 0, Or.inr rfl⟩

/-- C6 witness: a one-target scan with the flag pre-set dispatches
nothing and reports zero processed and reachable hosts. -/
theorem c6_cancel_before_first_batch_witness :
    ((fun _ => true) : Nat → Bool) 0 = true ∧
      (runIpScan (fun _ => ⟨0, 0, 0, 0, 0, 0, []⟩) (fun _ => true)
        ["192.168.1.1"]).2.processed = 0 ∧
      (runIpScan (fun _ => ⟨0, 0, 0, 0, 0, 0, []⟩) (fun _ => true)
        ["192.168.1.1"]).2.reachable = 0 ∧
      dispatchedBatches (runIpScan (fun _ => ⟨0, 0, 0, 0, 0, 0, []⟩) (fun _ => true)
        ["192.168.1.1"]).1 = [] := by
  have h := c6_cancel_before_first_batch (fun _ => ⟨0, 0, 0, 0, 0, 0, []⟩)
    (fun _ => true) ["192.168.1.1"] rfl
  exact ⟨rfl, h.1, h.2.1, h.2.2.1⟩

/-- C7: the published aggregate counters are monotonically
non-decreasing: starting from the zeroed counters, each batch completion
publishes `processed`/`reachable` values at least as large as the
previous publication. -/
theorem c7_aggregates_monotone (oracle : List String → FpingScanResult)
    (stopAt : Nat → Bool) (targets : List String) :
    List.Chain' (fun a b => a.1 ≤ b.1 ∧ a.2 ≤ b.2)
      ((0, 0) :: publishedAggregates (runIpScan oracle stopAt targets).1) ∧
    List.Chain' (fun a b => a.1 ≤ b.1 ∧ a.2 ≤ b.2)
      (publishedAggregates (runIpScan oracle stopAt targets).1) := by
  unfold runIpScan
  have h := runIpScanGo_aggregates_chain oracle stopAt targets targets.length 0 0 ⟨0, 0, []⟩
  exact ⟨h, h.tail⟩

end SuperRoute

namespace SuperRoute

/-- The ring-buffer append keeps the most recent lines: under the cap
invariant, the result is exactly the last `cap` (or fewer) lines of
`buffer ++ lines`, in order. -/
theorem appendCapped_spec (cap : Nat) (buffer lines : List String)
    (h : buffer.length ≤ cap) :
    (appendCapped cap buffer lines).length ≤ cap ∧
      appendCapped cap buffer lines =
        (buffer ++ lines).drop ((buffer ++ lines).length - cap) := by
  unfold appendCapped
  split
  · rename_i hempty
    have he : lines = [] := List.isEmpty_iff.mp hempty
    subst he
    rw [List.append_nil]
    exact ⟨h, by rw [Nat.sub_eq_zero_of_le h, List.drop_zero]⟩
  · dsimp only
    split
    · rename_i hgt
      constructor
      · rw [List.length_drop]
        omega
      · rfl
    · rename_i hle
      push_neg at hle
      exact ⟨hle, by rw [Nat.sub_eq_zero_of_le hle, List.drop_zero]⟩

/-- C10: after an append under the cap invariant, the ping log holds at
most `MAX_LOG_LINES` lines and the command log at most
`MAX_COMMAND_LINES`; when the cap is exceeded the oldest lines are
dropped, so each buffer is exactly the most recent suffix of
`buffer ++ lines`, in order. -/
theorem c10_log_buffers_capped (pingBuf cmdBuf lines lines' : List String)
    (hping : pingBuf.length ≤ MAX_LOG_LINES)
    (hcmd : cmdBuf.length ≤ MAX_COMMAND_LINES) :
    (appendPingLines pingBuf lines).length ≤ MAX_LOG_LINES ∧
    appendPingLines pingBuf lines =
      (pingBuf ++ lines).drop ((pingBuf ++ lines).length - MAX_LOG_LINES) ∧
    appendPingLines pingBuf lines <:+ pingBuf ++ lines ∧
    (appendCommandLines cmdBuf lines').length ≤ MAX_COMMAND_LINES ∧
    appendCommandLines cmdBuf lines' =
      (cmdBuf ++ lines').drop ((cmdBuf ++ lines').length - MAX_COMMAND_LINES) ∧
    appendCommandLines cmdBuf lines' <:+ cmdBuf ++ lines' := by
  obtain ⟨hp1, hp2⟩ := appendCapped_spec MAX_LOG_LINES pingBuf lines hping
  obtain ⟨hc1, hc2⟩ := appendCapped_spec MAX_COMMAND_LINES cmdBuf lines' hcmd
  refine ⟨hp1, hp2, ?_, hc1, hc2, ?_⟩
  · rw [show appendPingLines pingBuf lines = appendCapped MAX_LOG_LINES pingBuf lines
      from rfl, hp2]
    exact List.drop_suffix _ _
  · rw [show appendCommandLines cmdBuf lines' = appendCapped MAX_COMMAND_LINES cmdBuf lines'
      from rfl, hc2]
    exact List.drop_suffix _ _

/-- C10 witness: appending two lines to a one-line ping log and a
one-line command log stays within both caps and keeps all lines. -/
theorem c10_log_buffers_capped_witness :
    (["a"] : List String).length ≤ MAX_LOG_LINES ∧
      (["c"] : List String).length ≤ MAX_COMMAND_LINES ∧
      (appendPingLines ["a"] ["b1", "b2"]).length ≤ MAX_LOG_LINES ∧
      (appendCommandLines ["c"] ["d1", "d2"]).length ≤ MAX_COMMAND_LINES := by
  have h := c10_log_buffers_capped ["a"] ["c"] ["b1", "b2"] ["d1", "d2"]
    (by norm_num [MAX_LOG_LINES]) (by norm_num [MAX_COMMAND_LINES])
  exact ⟨by norm_num [MAX_LOG_LINES], by norm_num [MAX_COMMAND_LINES], h.1, h.2.2.2.1⟩

/-- C1: any command line whose leading token does not match an
allow-listed prefix case-insensitively is rejected by `authorize`; in
particular chaining attempts with an unlisted head program never pass. -/
theorem c1_authorize_rejects_unlisted (commandLine : String)
    (h : ∀ p ∈ ALLOWED_COMMAND_PREFIXES,
      toLowerStr (leadingToken commandLine) ≠ toLowerStr p) :
    authorize commandLine = none := by
  unfold authorize
  rw [if_neg]
  intro hany
  rcases List.any_eq_true.mp hany with ⟨p, hp, hpe⟩
  exact h p hp (of_decide_eq_true hpe)

/-- C1 witness: `rm -rf / && route print` has leading token `rm`, which
matches no allow-listed prefix, and is rejected despite the chained
allow-listed tail. -/
theorem c1_authorize_rejects_unlisted_witness :
    (∀ p ∈ ALLOWED_COMMAND_PREFIXES,
      toLowerStr (leadingToken "rm -rf / && route print") ≠ toLowerStr p) ∧
      authorize "rm -rf / && route print" = none :=
  ⟨by decide,
    c1_authorize_rejects_unlisted "rm -rf / && route print" (by decide)⟩

/-- Folding `min` over a list stays below the seed and every element. -/
theorem foldl_min_le (xs : List ℚ) : ∀ (x : ℚ),
    xs.foldl min x ≤ x ∧ ∀ l ∈ xs, xs.foldl min x ≤ l := by
  induction xs with
  | nil => intro x; exact ⟨le_refl x, by simp⟩
  | cons y ys ih =>
    intro x
    rw [List.foldl_cons]
    obtain ⟨h1, h2⟩ := ih (min x y)
    refine ⟨h1.trans (min_le_left x y), ?_⟩
    intro l hl
    rcases List.mem_cons.mp hl with he | hm
    · subst he
      exact h1.trans (min_le_right x l)
    · exact h2 l hm

/-- Folding `max` over a list stays above the seed and every element. -/
theorem foldl_max_ge (xs : List ℚ) : ∀ (x : ℚ),
    x ≤ xs.foldl max x ∧ ∀ l ∈ xs, l ≤ xs.foldl max x := by
  induction xs with
  | nil => intro x; exact ⟨le_refl x, by simp⟩
  | cons y ys ih =>
    intro x
    rw [List.foldl_cons]
    obtain ⟨h1, h2⟩ := ih (max x y)
    refine ⟨(le_max_left x y).trans h1, ?_⟩
    intro l hl
    rcases List.mem_cons.mp hl with he | hm
    · subst he
      exact (le_max_right x l).trans h1
    · exact h2 l hm

/-- C8: `batchProbe` sends one probe per outcome, counts the successes
as received, computes `lossPercent = 100 * (sent - received) / sent` with
the `sent = 0` guard (so zero targets yield `sent = 0`, `received = 0`,
`lossPercent = 0` with no division), averages successful latencies only
(`avg * received` equals their sum), reports `0` for min/avg/max when no
probe succeeded, and brackets every successful latency between `minMs`
and `maxMs`. -/
theorem c8_batchProbe_numeric (outcomes : List ProbeOutcome) :
    (batchProbe []).sent = 0 ∧ (batchProbe []).received = 0 ∧
      (batchProbe []).lossPercent = 0 ∧
    (batchProbe outcomes).sent = outcomes.length ∧
    (batchProbe outcomes).received = (outcomes.filter (fun o => o.success)).length ∧
    (batchProbe outcomes).lossPercent =
      (if outcomes.length = 0 then 0 else
        100 * ((outcomes.length : ℚ) - (outcomes.filter (fun o => o.success)).length) /
          outcomes.length) ∧
    (outcomes.filter (fun o => o.success) = [] →
      (batchProbe outcomes).minMs = 0 ∧ (batchProbe outcomes).avgMs = 0 ∧
        (batchProbe outcomes).maxMs = 0) ∧
    ((batchProbe outcomes).received ≠ 0 →
      (batchProbe outcomes).avgMs * (batchProbe outcomes).received =
        ((outcomes.filter (fun o => o.success)).map (fun o => o.latencyMs)).sum) ∧
    (∀ l ∈ (outcomes.filter (fun o => o.success)).map (fun o => o.latencyMs),
      (batchProbe outcomes).minMs ≤ l ∧ l ≤ (batchProbe outcomes).maxMs) := by
  refine ⟨rfl, rfl, rfl, rfl, by simp [batchProbe], ?_, ?_, ?_, ?_⟩
  · simp [batchProbe]
  · intro hempty
    simp [batchProbe, hempty]
  · intro hne
    simp only [batchProbe] at hne ⊢
    rw [if_neg (by simpa using hne)]
    have hq : (((outcomes.filter (fun o => o.success)).length : ℚ)) ≠ 0 := by
      simpa using hne
    rw [List.length_map]
    exact div_mul_cancel₀ _ hq
  · intro l hl
    rcases hfm : (outcomes.filter (fun o => o.success)).map (fun o => o.latencyMs) with _ | ⟨x, xs⟩
    · rw [hfm] at hl
      exact absurd hl (List.not_mem_nil _)
    · rw [hfm] at hl
      simp only [batchProbe, hfm]
      rcases List.mem_cons.mp hl with he | hm
      · subst he
        exact ⟨(foldl_min_le xs l).1, (foldl_max_ge xs l).1⟩
      · exact ⟨(foldl_min_le xs x).2 l hm, (foldl_max_ge xs x).2 l hm⟩

/-- C8 witness: two probes with one success at 5 ms give `sent = 2`,
`received = 1`, and the successful latency bounded by min/max. -/
theorem c8_batchProbe_numeric_witness :
    (batchProbe [⟨true, 5⟩, ⟨false, 7⟩]).sent = 2 ∧
      (batchProbe [⟨true, 5⟩, ⟨false, 7⟩]).received = 1 ∧
      (batchProbe [⟨true, 5⟩, ⟨false, 7⟩]).lossPercent = 50 ∧
      (batchProbe [⟨true, 5⟩, ⟨false, 7⟩]).minMs ≤ 5 ∧
      (5 : ℚ) ≤ (batchProbe [⟨true, 5⟩, ⟨false, 7⟩]).maxMs := by
  have h := c8_batchProbe_numeric [⟨true, 5⟩, ⟨false, 7⟩]
  obtain ⟨-, -, -, hsent, hrecv, hloss, -, -, hbound⟩ := h
  have hmem : (5 : ℚ) ∈ (([⟨true, 5⟩, ⟨false, 7⟩] :
      List ProbeOutcome).filter (fun o => o.success)).map (fun o => o.latencyMs) := by
    simp [List.filter]
  obtain ⟨hmin, hmax⟩ := hbound 5 hmem
  refine ⟨by simpa using hsent, by rw [hrecv]; rfl, ?_, hmin, hmax⟩
  rw [hloss]
  norm_num

end SuperRoute

namespace SuperRoute

/-- C5 witness: a two-target scan with no cancellation has a well-formed
batched trace whose single dispatched batch is the whole target list. -/
theorem c5_scan_batching_witness :
    BatchedTrace 0 (runIpScan (fun b => ⟨b.length, 0, 0, 0, 0, 0, []⟩)
      (fun _ => false) ["10.0.0.1", "10.0.0.2"]).1 ∧
      (dispatchedBatches (runIpScan (fun b => ⟨b.length, 0, 0, 0, 0, 0, []⟩)
        (fun _ => false) ["10.0.0.1", "10.0.0.2"]).1).flatten <+:
        ["10.0.0.1", "10.0.0.2"] :=
  ⟨(c5_scan_batching (fun b => ⟨b.length, 0, 0, 0, 0, 0, []⟩)
      (fun _ => false) ["10.0.0.1", "10.0.0.2"]).1,
    (c5_scan_batching (fun b => ⟨b.length, 0, 0, 0, 0, 0, []⟩)
      (fun _ => false) ["10.0.0.1", "10.0.0.2"]).2.2⟩

/-- C7 witness: the published aggregates of a concrete two-target scan
form a non-decreasing chain. -/
theorem c7_aggregates_monotone_witness :
    List.Chain' (fun a b => a.1 ≤ b.1 ∧ a.2 ≤ b.2)
      (publishedAggregates (runIpScan (fun b => ⟨b.length, 1, 0, 0, 0, 0, []⟩)
        (fun _ => false) ["10.0.0.1", "10.0.0.2"]).1) :=
  (c7_aggregates_monotone (fun b => ⟨b.length, 1, 0, 0, 0, 0, []⟩)
    (fun _ => false) ["10.0.0.1", "10.0.0.2"]).2

end SuperRoute
